import Mathlib

/-!
Verification of the Educheck AI NOC system.

The repository has two layers:

* a React frontend (assignment management, manual grading dialog, NOC
  dashboards, login) whose handlers are embedded below as pure functions
  over explicit state; and
* the similarity-detection / auto-grading pipeline, which the
  specification describes as a standalone scoring service (text
  normalizer, embedding encoder with cosine similarity, cross-encoder,
  entailment classifier, score fusion, peer similarity detector).  That
  pipeline is not part of the inspected frontend sources, so its
  components are modelled here directly from the specification; each such
  definition carries a doc comment saying so.

Numbers are modelled with exact arithmetic: scores and weights as
rationals, cosine similarity (which needs square roots) as a real number.
Text is modelled as a list of Unicode code points.
-/

namespace Educheck

/-- Modelled from the spec: the three labels produced by the entailment
classifier (spec section 4.4). -/
inductive EntailmentLabel
  | entailment
  | neutral
  | contradiction
deriving DecidableEq

/-- Modelled from the spec: default fusion weight for the encoder signal
(spec section 4.5, w1 = 0.4). -/
def w1 : ℚ := 2/5

/-- Modelled from the spec: default fusion weight for the cross-encoder
signal (spec section 4.5, w2 = 0.6). -/
def w2 : ℚ := 3/5

/-- Modelled from the spec: penalty factor applied to the blend when the
entailment label is contradiction (spec section 4.5, default 0.5). -/
def contradictionPenalty : ℚ := 1/2

/-- Modelled from the spec: rounding to the nearest integer followed by
clamping into the interval from 0 to max_marks (spec section 4.5 step 4). -/
def clampRound (r max_marks : ℚ) : ℚ :=
  max 0 (min ((round r : ℤ) : ℚ) max_marks)

/-- Modelled from the spec: the score fusion and grading engine (spec
section 4.5).  Maps the encoder cosine from the interval from -1 to 1
into the unit interval, blends it with the cross-encoder score, halves
the blend on a contradiction label regardless of confidence, and rounds
and clamps the scaled result into the interval from 0 to max_marks. -/
def fuse (encoder_cosine cross_encoder_score : ℚ) (entailment_label : EntailmentLabel)
    (confidence max_marks : ℚ) : ℚ :=
  let encoder_norm := (encoder_cosine + 1) / 2
  let blend := w1 * encoder_norm + w2 * cross_encoder_score
  let adjusted :=
    if entailment_label = EntailmentLabel.contradiction then blend * contradictionPenalty
    else blend
  clampRound (adjusted * max_marks) max_marks

/-- Modelled from the spec: lowercasing of a single code point (spec
section 4.1); upper-case ASCII letters are shifted into lower case. -/
def lowerN (n : Nat) : Nat :=
  if 65 ≤ n ∧ n ≤ 90 then n + 32 else n

/-- Modelled from the spec: code points that survive punctuation removal
and become part of tokens (lower-case ASCII letters and digits). -/
def isWordChar (n : Nat) : Bool :=
  (97 ≤ n && n ≤ 122) || (48 ≤ n && n ≤ 57)

/-- Modelled from the spec: whitespace code points (space, tab, line feed,
carriage return). -/
def isSpaceChar (n : Nat) : Bool :=
  n = 32 || n = 9 || n = 10 || n = 13

/-- Modelled from the spec: the cleaning phase of the text normalizer
(spec section 4.1).  Lowercases, drops punctuation, and maps every
whitespace code point to a single space. -/
def clean (l : List Nat) : List Nat :=
  (l.map lowerN).filterMap fun n =>
    if isWordChar n then some n
    else if isSpaceChar n then some 32 else none

/-- Modelled from the spec: tokenizer worker.  Walks the cleaned text,
accumulating the current token in reverse, and emits a token at every
whitespace boundary; runs of spaces therefore collapse. -/
def tokensAux : List Nat → List Nat → List (List Nat)
  | [], cur => if cur = [] then [] else [cur.reverse]
  | c :: cs, cur =>
    if c = 32 then
      if cur = [] then tokensAux cs [] else cur.reverse :: tokensAux cs []
    else tokensAux cs (c :: cur)

/-- Modelled from the spec: tokenization on whitespace boundaries. -/
def tokens (l : List Nat) : List (List Nat) :=
  tokensAux l []

/-- Modelled from the spec: the text normalizer (spec section 4.1), a
pure total function from text to a token sequence. -/
def normalize (l : List Nat) : List (List Nat) :=
  tokens (clean l)

/-- Modelled from the spec: rendering of a token sequence back to text,
with a single space between consecutive tokens. -/
def joinTokens : List (List Nat) → List Nat
  | [] => []
  | [t] => t
  | t :: t2 :: ts => t ++ 32 :: joinTokens (t2 :: ts)

/-- Modelled from the spec: the already-normalized form of a text, used
by the idempotence property of spec section 8. -/
def normalize_idempotent_form (t : List Nat) : List Nat :=
  joinTokens (normalize t)

/-- Modelled from the spec: dot product of two weight vectors. -/
def dot (u v : List ℚ) : ℚ :=
  (List.zipWith (· * ·) u v).sum

/-- Modelled from the spec: squared magnitude of a weight vector. -/
def magSq (v : List ℚ) : ℚ :=
  dot v v

/-- Modelled from the spec: cosine similarity of two vectors (spec
section 4.2), the dot product over the product of the magnitudes, defined
as 0 when either vector has zero magnitude. -/
noncomputable def cosine (u v : List ℚ) : ℝ :=
  if magSq u = 0 ∨ magSq v = 0 then 0
  else (dot u v : ℝ) / (Real.sqrt (magSq u) * Real.sqrt (magSq v))

/-- Modelled from the spec: the error taxonomy of spec section 7 that the
scoring stages can surface. -/
inductive ScoringError
  | scoringUnavailable
  | invalidInput
  | notFound
deriving DecidableEq

/-- Modelled from the spec: the cross-encoder scorer (spec section 4.3).
The joint model itself is an external oracle; a reference or submission
that normalizes to the empty token sequence yields score 0 rather than an
error. -/
def score_pair (model : List (List Nat) → List (List Nat) → Except ScoringError ℚ)
    (reference submission : List (List Nat)) : Except ScoringError ℚ :=
  if reference = [] ∨ submission = [] then Except.ok 0
  else model reference submission

/-- Modelled from the spec: bounded retry of a scoring stage (spec
section 4.2).  Consumes the outcomes of the attempts in order and
surfaces ScoringUnavailableError once every attempt is exhausted. -/
def retryStage (attempts : List (Except ScoringError ℚ)) : Except ScoringError ℚ :=
  match attempts with
  | [] => Except.error ScoringError.scoringUnavailable
  | Except.ok v :: _ => Except.ok v
  | Except.error _ :: rest => retryStage rest

/-- Modelled from the spec: the join point of the three scoring stages
(spec section 5).  Fusion runs only when the encoder, cross-encoder and
entailment stages all succeeded; a single stage failure aborts the whole
grading attempt and no partial or default grade is produced. -/
def joinAndFuse (encoderRes crossRes : Except ScoringError ℚ)
    (entailRes : Except ScoringError (EntailmentLabel × ℚ)) (max_marks : ℚ) :
    Except ScoringError ℚ :=
  match encoderRes, crossRes, entailRes with
  | Except.ok encoder_cosine, Except.ok cross, Except.ok le =>
    Except.ok (fuse encoder_cosine cross le.1 le.2 max_marks)
  | Except.error e, _, _ => Except.error e
  | _, Except.error e, _ => Except.error e
  | _, _, Except.error e => Except.error e

/-- Modelled from the spec: the grading control flow for one submission
(spec section 2): normalize both texts, obtain the three stage results
(the encoder and entailment stages are external oracles whose outcomes
are passed in; the cross-encoder stage is score_pair), join and fuse. -/
def gradeSubmissionPipeline (encoderRes : Except ScoringError ℚ)
    (crossModel : List (List Nat) → List (List Nat) → Except ScoringError ℚ)
    (entailRes : Except ScoringError (EntailmentLabel × ℚ))
    (referenceText submissionText : List Nat) (max_marks : ℚ) :
    Except ScoringError ℚ :=
  joinAndFuse encoderRes
    (score_pair crossModel (normalize referenceText) (normalize submissionText))
    entailRes max_marks

/-- Modelled from the spec: a submission as the peer similarity detector
sees it, an identifier and the raw text (spec section 3). -/
structure Sub where
  id : Nat
  text : List Nat
deriving DecidableEq

/-- Modelled from the spec: the token sequence of a submission, shared
with the grading path through the text normalizer. -/
def docTerms (s : Sub) : List (List Nat) :=
  normalize s.text

/-- Modelled from the spec: the vocabulary of an assignment, every term
occurring in the current submission set (spec section 4.6). -/
def vocab (subs : List Sub) : List (List Nat) :=
  ((subs.map docTerms).flatten).dedup

/-- Modelled from the spec: term frequency of a term in a document. -/
def tf (t : List Nat) (d : List (List Nat)) : ℚ :=
  (d.count t : ℚ)

/-- Modelled from the spec: document frequency of a term over the current
submission set. -/
def df (t : List Nat) (subs : List Sub) : Nat :=
  (subs.filter fun s => t ∈ docTerms s).length

/-- Modelled from the spec: inverse document frequency over the current
submission set only (spec section 4.6).  The spec fixes no formula for
the idf curve; it is modelled as the rational ratio of the corpus size to
the document frequency, which is recomputed fresh each time.  The
properties claimed of the detector (symmetry, canonical pair keying) do
not depend on the exact curve. -/
def idf (t : List Nat) (subs : List Sub) : ℚ :=
  if df t subs = 0 then 0 else (subs.length : ℚ) / (df t subs : ℚ)

/-- Modelled from the spec: the tf-idf weight vector of a submission over
the assignment vocabulary. -/
def tfidfVec (subs : List Sub) (s : Sub) : List ℚ :=
  (vocab subs).map fun t => tf t (docTerms s) * idf t subs

/-- Modelled from the spec: pairwise similarity of two submissions,
cosine similarity over their tf-idf weight vectors. -/
noncomputable def pairSim (subs : List Sub) (a b : Sub) : ℝ :=
  cosine (tfidfVec subs a) (tfidfVec subs b)

/-- Modelled from the spec: one edge of the peer similarity graph, keyed
by the canonically ordered pair of submission identifiers. -/
structure PeerEdge where
  id_a : Nat
  id_b : Nat
  similarity : ℝ

/-- Modelled from the spec: candidate edge for an ordered pair of
submissions; only pairs with id_a smaller than id_b produce an edge, so
each unordered pair is stored once under its canonical key. -/
noncomputable def pairEdge (subs : List Sub) (x y : Sub) : Option PeerEdge :=
  if x.id < y.id then some ⟨x.id, y.id, pairSim subs x y⟩ else none

/-- Modelled from the spec: the peer similarity detector (spec section
4.6); recomputes the full pairwise edge list for the submission set of
one assignment. -/
noncomputable def recompute (subs : List Sub) : List PeerEdge :=
  subs.flatMap fun x => subs.filterMap (pairEdge subs x)

/-- A student submission as the assignment management screen models it
(source part_003, interface Submission); marks and feedback are absent
until graded. -/
structure Submission where
  id : Nat
  student : String
  submitted_at : String
  status : String
  marks : Option Int
  feedback : Option String
  file_path : Option String
deriving DecidableEq

/-- An assignment as the assignment management screen models it (source
part_003, interface Assignment), restricted to the fields the grading
handler touches or displays. -/
structure Assignment where
  id : Nat
  title : String
  deadline : String
  max_marks : Int
  status : String
  assignment_type : String
  submissions : List Submission
deriving DecidableEq

/-- The inner update of handleGradeSubmission (source part_003): a
submission other than the selected one is returned unchanged, the
selected one gets the entered marks and feedback. -/
def gradeOneSubmission (selSubmissionId : Nat) (grade : Int) (feedback : String)
    (sub : Submission) : Submission :=
  if sub.id ≠ selSubmissionId then sub
  else { sub with marks := some grade, feedback := some feedback }

/-- The outer update of handleGradeSubmission (source part_003): an
assignment other than the selected one is returned unchanged, the
selected one has its submissions mapped through the inner update. -/
def gradeOneAssignment (selAssignmentId selSubmissionId : Nat) (grade : Int)
    (feedback : String) (assignment : Assignment) : Assignment :=
  if assignment.id ≠ selAssignmentId then assignment
  else { assignment with
         submissions := assignment.submissions.map
           (gradeOneSubmission selSubmissionId grade feedback) }

/-- The optimistic state update performed by handleGradeSubmission
(source part_003 lines 385-400): map every assignment through the outer
update. -/
def handleGradeSubmission (assignments : List Assignment)
    (selAssignmentId selSubmissionId : Nat) (grade : Int) (feedback : String) :
    List Assignment :=
  assignments.map (gradeOneAssignment selAssignmentId selSubmissionId grade feedback)

/-- Leading decimal digits of a character list, as parseInt reads them;
none when the first character is not a digit. -/
def leadingNat (cs : List Char) : Option Nat :=
  let ds := cs.takeWhile Char.isDigit
  if ds = [] then none
  else some (ds.foldl (fun acc c => 10 * acc + (c.toNat - 48)) 0)

/-- JavaScript parseInt on a decimal string: skip leading spaces, accept
an optional sign, read leading digits, ignore trailing characters; none
models NaN. -/
def jsParseInt (s : String) : Option Int :=
  let cs := s.data.dropWhile fun c => c = ' '
  match cs with
  | '-' :: rest => (leadingNat rest).map fun n => -(n : Int)
  | '+' :: rest => (leadingNat rest).map fun n => (n : Int)
  | _ => (leadingNat cs).map fun n => (n : Int)

/-- The onChange handler of the grade input in the Grade Submission
Dialog (source part_003 line 711): parseInt of the field value, with 0
replacing NaN. -/
def gradeInputOnChange (value : String) : Int :=
  (jsParseInt value).getD 0

/-- The grade cell of the submissions table (source part_003 lines
655-665): the marks when present, the text Not Graded when marks is
undefined or null. -/
def gradeCellText (marks : Option Int) : String :=
  match marks with
  | none => "Not Graded"
  | some m => toString m

/-- The NOC status of one record (source part_000 and part_002 type
NocStatus). -/
inductive NocStatus
  | pending
  | completed
  | granted
  | refused
  | pendingVerification
deriving DecidableEq

/-- One NOC detail row, restricted to the fields the summary statistics
read (source part_000 and part_002, interface NocDetailRow). -/
structure NocRec where
  status_record_id : Nat
  student_id : Nat
  noc_status : NocStatus
deriving DecidableEq

/-- The distinct keys (student identifiers or status record identifiers)
occurring in the fetched NOC rows. -/
def nocKeys (key : NocRec → Nat) (records : List NocRec) : List Nat :=
  (records.map key).dedup

/-- A key counts as granted when every one of its records has status
Granted (source part_002 line 185: isGranted starts true and is falsified
by any record whose status is not Granted; source part_000 line 207). -/
def isGrantedKey (key : NocRec → Nat) (records : List NocRec) (k : Nat) : Bool :=
  (records.filter fun r => key r == k).all fun r => r.noc_status == NocStatus.granted

/-- A key counts as refused when at least one of its records has status
Refused (source part_002 line 186, part_000 line 208). -/
def isRefusedKey (key : NocRec → Nat) (records : List NocRec) (k : Nat) : Bool :=
  (records.filter fun r => key r == k).any fun r => r.noc_status == NocStatus.refused

/-- Number of keys counted as granted: refused takes priority, granted
requires every record Granted (source part_002 lines 189-192, part_000
lines 209-210). -/
def grantedCount (key : NocRec → Nat) (records : List NocRec) : Nat :=
  (nocKeys key records).countP fun k =>
    !isRefusedKey key records k && isGrantedKey key records k

/-- Number of keys counted as refused (source part_002 lines 189-192,
part_000 lines 209-210). -/
def refusedCount (key : NocRec → Nat) (records : List NocRec) : Nat :=
  (nocKeys key records).countP (isRefusedKey key records)

/-- Total population of the summary: the number of distinct keys (source
part_002 line 194 totalStudents, part_000 line 213 totalSubjects). -/
def totalCount (key : NocRec → Nat) (records : List NocRec) : Nat :=
  (nocKeys key records).length

/-- Pending NOCs, computed by subtraction exactly as in both dashboards
(source part_002 line 197, part_000 line 216). -/
def pendingCount (key : NocRec → Nat) (records : List NocRec) : Int :=
  (totalCount key records : Int) - grantedCount key records - refusedCount key records

/-- The summary quadruple of the teacher NOC management dashboard,
grouped by student (source part_002 summaryStats). -/
def summaryStatsNOCManagement (records : List NocRec) : Nat × Nat × Nat × Int :=
  (totalCount NocRec.student_id records, grantedCount NocRec.student_id records,
   refusedCount NocRec.student_id records, pendingCount NocRec.student_id records)

/-- The summary quadruple of the student NOC view, grouped by status
record (subject) identifier (source part_000 summaryStats). -/
def summaryStatsStudentNOCView (records : List NocRec) : Nat × Nat × Nat × Int :=
  (totalCount NocRec.status_record_id records, grantedCount NocRec.status_record_id records,
   refusedCount NocRec.status_record_id records, pendingCount NocRec.status_record_id records)

/-- User roles of the login form (source part_005 type Role). -/
inductive Role
  | student
  | teacher
  | admin
deriving DecidableEq

/-- Role names as the backend and the form exchange them. -/
def roleString : Role → String
  | Role.student => "student"
  | Role.teacher => "teacher"
  | Role.admin => "admin"

/-- Outcome of one run of the login handler: either an error message is
set, or onLoginSuccess is invoked with a role and a token. -/
inductive LoginOutcome
  | errorSet (msg : String)
  | loginSuccess (role : Role) (token : String)
deriving DecidableEq

/-- The login handler handleSubmit (source part_005 lines 106-163) as a
pure function of the form state and of the two backend responses: the
token endpoint yields a token or an error detail, the profile endpoint
yields the registered role or an error.  The handler signs the user in
only after checking the backend role against the role selected in the
form. -/
def handleSubmit (email password : String) (selectedRole : Role)
    (tokenResp : Except String String) (profileResp : Except String Role) :
    LoginOutcome :=
  if email = "" ∨ password = "" then
    LoginOutcome.errorSet "Please enter both email and password."
  else
    match tokenResp with
    | Except.error detail => LoginOutcome.errorSet detail
    | Except.ok accessToken =>
      match profileResp with
      | Except.error _ => LoginOutcome.errorSet "Failed to fetch user data after login."
      | Except.ok userRole =>
        if userRole ≠ selectedRole then
          LoginOutcome.errorSet
            ("Login failed. You are registered as a " ++ roleString userRole ++
             ", not a " ++ roleString selectedRole ++ ". Please select the correct role.")
        else LoginOutcome.loginSuccess userRole accessToken

theorem round_mono_q {a b : ℚ} (h : a ≤ b) : round a ≤ round b := by
  rw [round_eq, round_eq]
  exact Int.floor_le_floor (by linarith)

theorem clampRound_nonneg (r M : ℚ) : 0 ≤ clampRound r M :=
  le_max_left 0 _

theorem clampRound_le {M : ℚ} (hM : 0 ≤ M) (r : ℚ) : clampRound r M ≤ M :=
  max_le hM (min_le_right _ _)

theorem clampRound_mono {r s : ℚ} (M : ℚ) (h : r ≤ s) :
    clampRound r M ≤ clampRound s M :=
  max_le_max le_rfl (min_le_min (by exact_mod_cast round_mono_q h) le_rfl)

theorem clampRound_eq_zero_of_nonpos {r : ℚ} (M : ℚ) (h : r ≤ 0) :
    clampRound r M = 0 := by
  have h1 : round r ≤ 0 := by
    have := round_mono_q h
    simpa using this
  apply max_eq_left
  calc min ((round r : ℤ) : ℚ) M ≤ ((round r : ℤ) : ℚ) := min_le_left _ _
    _ ≤ 0 := by exact_mod_cast h1

/-- C1 (amended): the fused grade produced by the scoring engine always
lies within the interval from 0 to max_marks for all valid inputs, but
the manual grading operation of the assignment screen records the parsed
grade verbatim, with no clamping into that interval. -/
theorem fuse_bounds_and_manual_grade_unclamped :
    (∀ (c x : ℚ) (l : EntailmentLabel) (conf M : ℚ),
        -1 ≤ c → c ≤ 1 → 0 ≤ x → x ≤ 1 → 0 ≤ M →
        0 ≤ fuse c x l conf M ∧ fuse c x l conf M ≤ M) ∧
    (∀ (sid : Nat) (g : Int) (fb : String) (sub : Submission), sub.id = sid →
        (gradeOneSubmission sid g fb sub).marks = some g) := by
  constructor
  · intro c x l conf M _ _ _ _ hM
    exact ⟨clampRound_nonneg _ _, clampRound_le hM _⟩
  · intro sid g fb sub h
    simp [gradeOneSubmission, h]

theorem fuse_bounds_and_manual_grade_unclamped_witness :
    ((-1 : ℚ) ≤ 0 ∧ (0 : ℚ) ≤ 10) ∧
    (0 ≤ fuse 0 0 EntailmentLabel.neutral 0 10 ∧
      fuse 0 0 EntailmentLabel.neutral 0 10 ≤ 10) ∧
    (gradeOneSubmission 1 7 "ok" ⟨1, "A", "t", "submitted", none, none, none⟩).marks = some 7 :=
  ⟨⟨by norm_num, by norm_num⟩,
   fuse_bounds_and_manual_grade_unclamped.1 0 0 EntailmentLabel.neutral 0 10
     (by norm_num) (by norm_num) le_rfl (by norm_num) (by norm_num),
   fuse_bounds_and_manual_grade_unclamped.2 1 7 "ok" _ rfl⟩

/-- C1 counterexample: with max_marks 100, typing 150 into the grade
input stores the grade 150, and the optimistic update of
handleGradeSubmission records marks of 150 for the submission, strictly
above max_marks; the recorded grade is not kept within the interval from
0 to max_marks. -/
theorem manual_grade_exceeds_max_counterexample :
    gradeInputOnChange "150" = 150 ∧
    (handleGradeSubmission
        [⟨1, "Essay", "2025-02-01", 100, "published", "Theory Assignment",
          [⟨1, "Asha", "2025-01-10", "submitted", none, none, none⟩]⟩]
        1 1 (gradeInputOnChange "150") "good work").map
      (fun a => a.submissions.map Submission.marks) = [[some 150]] ∧
    ¬ ((150 : Int) ≤ 100) :=
  ⟨by decide, by decide, by decide⟩

/-- C2: for any encoder cosine in the interval from -1 to 1, any cross
encoder score in the unit interval, any confidence and any max_marks, the
fused grade under the contradiction label never exceeds the fused grade
under the neutral label computed from the same blend. -/
theorem fuse_contradiction_le_neutral :
    ∀ (c x conf M : ℚ), -1 ≤ c → c ≤ 1 → 0 ≤ x → x ≤ 1 →
      fuse c x EntailmentLabel.contradiction conf M ≤
        fuse c x EntailmentLabel.neutral conf M := by
  intro c x conf M _ _ _ _
  simp only [fuse, reduceIte, reduceCtorEq]
  set B := w1 * ((c + 1) / 2) + w2 * x with hB
  rcases le_or_lt 0 (B * M) with h | h
  · apply clampRound_mono
    rw [contradictionPenalty]
    calc B * (1 / 2) * M = B * M / 2 := by ring
      _ ≤ B * M := half_le_self h
  · have h1 : B * contradictionPenalty * M ≤ 0 := by
      rw [contradictionPenalty]
      have heq : B * (1 / 2) * M = B * M / 2 := by ring
      rw [heq]
      exact le_of_lt (div_neg_of_neg_of_pos h (by norm_num))
    rw [clampRound_eq_zero_of_nonpos _ h1]
    exact clampRound_nonneg _ _

theorem fuse_contradiction_le_neutral_witness :
    ((-1 : ℚ) ≤ 1 ∧ (0 : ℚ) ≤ 1) ∧
    fuse 1 1 EntailmentLabel.contradiction (9 / 10) 10 ≤
      fuse 1 1 EntailmentLabel.neutral (9 / 10) 10 :=
  ⟨⟨by norm_num, by norm_num⟩,
   fuse_contradiction_le_neutral 1 1 (9 / 10) 10 (by norm_num) le_rfl
     (by norm_num) le_rfl⟩

theorem dot_self_nonneg (v : List ℚ) : 0 ≤ dot v v := by
  induction v with
  | nil => simp [dot]
  | cons a l ih =>
    have h : dot (a :: l) (a :: l) = a * a + dot l l := by
      simp [dot, List.zipWith_cons_cons]
    rw [h]
    have := mul_self_nonneg a
    linarith

/-- C3: cosine similarity is 1 on any vector of nonzero magnitude paired
with itself, and is defined as 0, rather than failing on a division by
zero, whenever either argument has zero magnitude. -/
theorem cosine_self_and_zero_guard :
    (∀ v : List ℚ, magSq v ≠ 0 → cosine v v = 1) ∧
    (∀ u v : List ℚ, magSq u = 0 ∨ magSq v = 0 → cosine u v = 0) := by
  constructor
  · intro v h
    have hnn : (0 : ℚ) ≤ magSq v := dot_self_nonneg v
    rw [cosine, if_neg (by simp [h])]
    have hd : dot v v = magSq v := rfl
    rw [hd, Real.mul_self_sqrt (by exact_mod_cast hnn)]
    exact div_self (Rat.cast_ne_zero.mpr h)
  · intro u v h
    rw [cosine, if_pos h]

theorem cosine_self_and_zero_guard_witness :
    magSq [1, 2] ≠ 0 ∧ cosine [1, 2] [1, 2] = 1 :=
  ⟨by norm_num [magSq, dot], cosine_self_and_zero_guard.1 [1, 2] (by norm_num [magSq, dot])⟩

theorem tokensAux_append_no_space (tok : List Nat) (h : ∀ c ∈ tok, c ≠ 32) :
    ∀ rest cur : List Nat, tokensAux (tok ++ rest) cur = tokensAux rest (tok.reverse ++ cur) := by
  induction tok with
  | nil => intro rest cur; simp
  | cons c tok ih =>
    intro rest cur
    have hc : c ≠ 32 := h c (by simp)
    have htok : ∀ d ∈ tok, d ≠ 32 := fun d hd => h d (by simp [hd])
    simp only [List.cons_append, tokensAux, if_neg hc]
    rw [show tok.append rest = tok ++ rest from rfl, ih htok rest (c :: cur)]
    simp [List.append_assoc]

theorem tokensAux_good (l : List Nat) :
    ∀ cur : List Nat, (∀ c ∈ l, c = 32 ∨ isWordChar c = true) →
      (∀ c ∈ cur, isWordChar c = true) →
      ∀ t ∈ tokensAux l cur, t ≠ [] ∧ ∀ c ∈ t, isWordChar c = true := by
  induction l with
  | nil =>
    intro cur _ hcur t ht
    by_cases hc : cur = []
    · simp [tokensAux, hc] at ht
    · simp only [tokensAux, if_neg hc, List.mem_singleton] at ht
      subst ht
      refine ⟨by simpa using hc, fun c hcrev => hcur c (by simpa using hcrev)⟩
  | cons c cs ih =>
    intro cur hl hcur t ht
    have hc := hl c (by simp)
    have hcs : ∀ d ∈ cs, d = 32 ∨ isWordChar d = true := fun d hd => hl d (by simp [hd])
    by_cases h32 : c = 32
    · subst h32
      simp only [tokensAux, if_pos rfl] at ht
      by_cases hcur0 : cur = []
      · rw [if_pos hcur0] at ht
        exact ih [] hcs (by simp) t ht
      · rw [if_neg hcur0] at ht
        rcases List.mem_cons.mp ht with h | h
        · subst h
          refine ⟨by simpa using hcur0, fun d hd => hcur d (by simpa using hd)⟩
        · exact ih [] hcs (by simp) t h
    · have hw : isWordChar c = true := by
        rcases hc with h | h
        · exact absurd h h32
        · exact h
      simp only [tokensAux, if_neg h32] at ht
      refine ih (c :: cur) hcs ?_ t ht
      intro d hd
      rcases List.mem_cons.mp hd with h | h
      · subst h; exact hw
      · exact hcur d h

theorem clean_chars (l : List Nat) : ∀ c ∈ clean l, c = 32 ∨ isWordChar c = true := by
  intro c hc
  simp only [clean, List.mem_filterMap] at hc
  obtain ⟨a, -, ha⟩ := hc
  by_cases h1 : isWordChar a
  · rw [if_pos h1] at ha
    cases ha
    right; exact h1
  · rw [if_neg h1] at ha
    by_cases h2 : isSpaceChar a
    · rw [if_pos h2] at ha
      cases ha
      left; rfl
    · rw [if_neg h2] at ha
      cases ha

theorem clean_eq_self (l : List Nat) (h : ∀ c ∈ l, c = 32 ∨ isWordChar c = true) :
    clean l = l := by
  induction l with
  | nil => rfl
  | cons c cs ih =>
    have hc := h c (by simp)
    have hcs : ∀ d ∈ cs, d = 32 ∨ isWordChar d = true := fun d hd => h d (by simp [hd])
    have hlow : lowerN c = c := by
      rcases hc with h1 | h1
      · subst h1; decide
      · rw [lowerN, if_neg]
        simp only [isWordChar, Bool.or_eq_true, Bool.and_eq_true, decide_eq_true_eq] at h1
        omega
    have htail := ih hcs
    simp only [clean, List.map_cons, List.filterMap_cons] at htail ⊢
    rw [hlow]
    rcases hc with h1 | h1
    · subst h1
      rw [if_neg (by decide), if_pos (by decide)]
      rw [htail]
    · rw [if_pos h1, htail]

theorem joinTokens_chars (toks : List (List Nat))
    (h : ∀ t ∈ toks, ∀ c ∈ t, isWordChar c = true) :
    ∀ c ∈ joinTokens toks, c = 32 ∨ isWordChar c = true := by
  induction toks with
  | nil => intro c hc; simp [joinTokens] at hc
  | cons t ts ih =>
    cases ts with
    | nil =>
      intro c hc
      simp only [joinTokens] at hc
      right; exact h t (by simp) c hc
    | cons t2 ts2 =>
      intro c hc
      simp only [joinTokens] at hc
      rcases List.mem_append.mp hc with h1 | h1
      · right; exact h t (by simp) c h1
      · rcases List.mem_cons.mp h1 with h2 | h2
        · left; exact h2
        · exact ih (fun u hu d hd => h u (by simp [hu]) d hd) c h2

theorem tokens_joinTokens (toks : List (List Nat))
    (h : ∀ t ∈ toks, t ≠ [] ∧ ∀ c ∈ t, c ≠ 32) :
    tokens (joinTokens toks) = toks := by
  induction toks with
  | nil => rfl
  | cons t ts ih =>
    obtain ⟨hne, hnsp⟩ := h t (by simp)
    cases ts with
    | nil =>
      show tokensAux (joinTokens [t]) [] = [t]
      simp only [joinTokens]
      have h1 := tokensAux_append_no_space t hnsp [] []
      simp only [List.append_nil] at h1
      rw [h1]
      simp only [tokensAux]
      rw [if_neg (by simpa using hne)]
      simp
    | cons t2 ts2 =>
      have hts : ∀ u ∈ t2 :: ts2, u ≠ [] ∧ ∀ c ∈ u, c ≠ 32 := fun u hu => h u (by simp [hu])
      show tokensAux (joinTokens (t :: t2 :: ts2)) [] = t :: t2 :: ts2
      simp only [joinTokens]
      have h1 := tokensAux_append_no_space t hnsp (32 :: joinTokens (t2 :: ts2)) []
      simp only [List.append_nil] at h1
      rw [h1]
      simp only [tokensAux, if_true]
      rw [if_neg (by simpa using hne)]
      rw [show tokensAux (joinTokens (t2 :: ts2)) [] = tokens (joinTokens (t2 :: ts2)) from rfl]
      rw [ih hts]
      simp

/-- C4: the text normalizer is a pure total function that maps the empty
text to the empty token sequence, and it is idempotent: normalizing the
already-normalized form of any text yields the same token sequence as
normalizing the text itself. -/
theorem normalize_empty_and_idempotent :
    normalize [] = [] ∧
    ∀ t : List Nat, normalize (normalize_idempotent_form t) = normalize t := by
  refine ⟨rfl, fun t => ?_⟩
  have hgood : ∀ u ∈ tokens (clean t), u ≠ [] ∧ ∀ c ∈ u, isWordChar c = true :=
    tokensAux_good (clean t) [] (clean_chars t) (by simp)
  have hchars : ∀ c ∈ joinTokens (tokens (clean t)), c = 32 ∨ isWordChar c = true :=
    joinTokens_chars _ fun u hu => (hgood u hu).2
  have hnsp : ∀ u ∈ tokens (clean t), u ≠ [] ∧ ∀ c ∈ u, c ≠ 32 := by
    intro u hu
    refine ⟨(hgood u hu).1, fun c hc h32 => ?_⟩
    have hcw := (hgood u hu).2 c hc
    subst h32
    exact absurd hcw (by decide)
  show tokens (clean (joinTokens (tokens (clean t)))) = tokens (clean t)
  rw [clean_eq_self _ hchars]
  exact tokens_joinTokens _ hnsp

theorem dot_cons_cons (a b : ℚ) (u v : List ℚ) :
    dot (a :: u) (b :: v) = a * b + dot u v := by
  simp [dot, List.zipWith_cons_cons]

theorem dot_comm (u : List ℚ) : ∀ v, dot u v = dot v u := by
  induction u with
  | nil => intro v; cases v <;> simp [dot]
  | cons a u ih =>
    intro v
    cases v with
    | nil => simp [dot]
    | cons b v => rw [dot_cons_cons, dot_cons_cons, ih v, mul_comm a b]

theorem cosine_comm (u v : List ℚ) : cosine u v = cosine v u := by
  rw [cosine, cosine]
  by_cases h : magSq u = 0 ∨ magSq v = 0
  · rw [if_pos h, if_pos (Or.symm h)]
  · rw [if_neg h, if_neg (fun hc => h (Or.symm hc)), dot_comm, mul_comm]

theorem countP_pairEdge_inner (subs : List Sub) (x : Sub) (a b : Nat) (hab : a < b) :
    ∀ l : List Sub,
      ((l.filterMap (pairEdge subs x)).countP fun e => e.id_a == a && e.id_b == b) =
        if x.id = a then l.countP (fun y => y.id == b) else 0 := by
  intro l
  induction l with
  | nil => simp
  | cons y l ih =>
    by_cases hlt : x.id < y.id
    · rw [List.filterMap_cons_some
        (show pairEdge subs x y = some ⟨x.id, y.id, pairSim subs x y⟩ by
          rw [pairEdge, if_pos hlt])]
      rw [List.countP_cons, ih]
      by_cases hx : x.id = a
      · rw [if_pos hx, List.countP_cons]
        simp [hx]
      · rw [if_neg hx]
        simp [hx]
    · rw [List.filterMap_cons_none (show pairEdge subs x y = none by
        rw [pairEdge, if_neg hlt])]
      rw [ih]
      by_cases hx : x.id = a
      · rw [if_pos hx, if_pos hx, List.countP_cons]
        have hyb : (y.id == b) = false := by
          simp only [beq_eq_false_iff_ne, ne_eq]
          omega
        simp [hyb]
      · rw [if_neg hx, if_neg hx]

theorem countP_recompute (subs : List Sub) (a b : Nat) (hab : a < b)
    (hnd : (subs.map Sub.id).Nodup) (ha : a ∈ subs.map Sub.id)
    (hb : b ∈ subs.map Sub.id) :
    ((recompute subs).countP fun e => e.id_a == a && e.id_b == b) = 1 := by
  have main : ∀ outer : List Sub,
      ((outer.flatMap fun x => subs.filterMap (pairEdge subs x)).countP
          fun e => e.id_a == a && e.id_b == b) =
        (outer.countP fun x => x.id == a) * (subs.countP fun y => y.id == b) := by
    intro outer
    induction outer with
    | nil => simp
    | cons x l ih =>
      rw [List.flatMap_cons, List.countP_append, ih,
        countP_pairEdge_inner subs x a b hab subs, List.countP_cons]
      by_cases hx : x.id = a
      · rw [if_pos hx]
        simp only [hx, beq_self_eq_true, if_true]
        ring
      · rw [if_neg hx]
        simp [hx]
  have hca : (subs.countP fun x => x.id == a) = 1 := by
    have h1 := List.count_eq_one_of_mem hnd ha
    simpa [List.count, List.countP_map, Function.comp] using h1
  have hcb : (subs.countP fun y => y.id == b) = 1 := by
    have h1 := List.count_eq_one_of_mem hnd hb
    simpa [List.count, List.countP_map, Function.comp] using h1
  rw [recompute, main subs, hca, hcb]

/-- C5: peer similarity is symmetric in its two submissions, every stored
edge is keyed with id_a strictly below id_b, and for each unordered pair
of distinct submission identifiers of the assignment exactly one edge is
stored, under the canonical ordering. -/
theorem peer_similarity_symmetric_and_canonical :
    (∀ (subs : List Sub) (a b : Sub), pairSim subs a b = pairSim subs b a) ∧
    (∀ subs : List Sub, ∀ e ∈ recompute subs, e.id_a < e.id_b) ∧
    (∀ (subs : List Sub) (a b : Nat), (subs.map Sub.id).Nodup → a < b →
      a ∈ subs.map Sub.id → b ∈ subs.map Sub.id →
      ((recompute subs).countP fun e => e.id_a == a && e.id_b == b) = 1) := by
  refine ⟨fun subs a b => cosine_comm _ _, ?_, ?_⟩
  · intro subs e he
    simp only [recompute, List.mem_flatMap] at he
    obtain ⟨x, -, hx⟩ := he
    simp only [List.mem_filterMap] at hx
    obtain ⟨y, -, hy⟩ := hx
    rw [pairEdge] at hy
    by_cases hlt : x.id < y.id
    · rw [if_pos hlt] at hy
      cases hy
      exact hlt
    · rw [if_neg hlt] at hy
      cases hy
  · intro subs a b hnd hab ha hb
    exact countP_recompute subs a b hab hnd ha hb

theorem peer_similarity_symmetric_and_canonical_witness :
    (([⟨1, []⟩, ⟨2, []⟩] : List Sub).map Sub.id).Nodup ∧ (1 : Nat) < 2 ∧
    ((recompute [⟨1, []⟩, ⟨2, []⟩]).countP fun e => e.id_a == 1 && e.id_b == 2) = 1 :=
  ⟨by decide, by decide,
   peer_similarity_symmetric_and_canonical.2.2 [⟨1, []⟩, ⟨2, []⟩] 1 2
     (by decide) (by decide) (by decide) (by decide)⟩

/-- C6 (amended): a reference or submission that normalizes to the empty
token sequence makes score_pair return 0 with no error; in particular for
a submission equal to the empty string the pipeline runs without error,
the cross-encoder score is 0, and the fused grade equals fuse applied to
the encoder cosine, cross score 0, and the entailment result — which is
not 0 in general. -/
theorem score_pair_empty_and_pipeline_no_error :
    (∀ (model : List (List Nat) → List (List Nat) → Except ScoringError ℚ)
        (reference submission : List (List Nat)),
        reference = [] ∨ submission = [] →
        score_pair model reference submission = Except.ok 0) ∧
    (∀ (encCos : ℚ) (model : List (List Nat) → List (List Nat) → Except ScoringError ℚ)
        (label : EntailmentLabel) (conf : ℚ) (refT : List Nat) (M : ℚ),
        gradeSubmissionPipeline (Except.ok encCos) model (Except.ok (label, conf)) refT [] M =
          Except.ok (fuse encCos 0 label conf M)) := by
  constructor
  · intro model r s h
    rw [score_pair, if_pos h]
  · intro encCos model label conf refT M
    rw [gradeSubmissionPipeline, score_pair,
      if_pos (show normalize refT = [] ∨ normalize ([] : List Nat) = [] from Or.inr rfl)]
    rfl

theorem score_pair_empty_witness :
    (([] : List (List Nat)) = [] ∨ ([[104, 105]] : List (List Nat)) = []) ∧
    score_pair (fun _ _ => Except.error ScoringError.scoringUnavailable) [] [[104, 105]] =
      Except.ok 0 :=
  ⟨Or.inl rfl,
   score_pair_empty_and_pipeline_no_error.1 _ [] [[104, 105]] (Or.inl rfl)⟩

/-- C6 counterexample: with the spec default weights, an empty submission
does not fuse to grade 0 in general: with encoder cosine 0, a neutral
entailment label and max_marks 10, the pipeline succeeds with cross score
0 but the fused grade is 2, not 0. -/
theorem empty_submission_nonzero_grade_counterexample :
    gradeSubmissionPipeline (Except.ok 0) (fun _ _ => Except.ok 1)
      (Except.ok (EntailmentLabel.neutral, 1)) [104, 105] [] 10 = Except.ok 2 ∧
    (2 : ℚ) ≠ 0 := by
  constructor
  · have hf : fuse 0 0 EntailmentLabel.neutral 1 10 = 2 := by
      simp only [fuse]
      rw [if_neg (show ¬(EntailmentLabel.neutral = EntailmentLabel.contradiction) by decide)]
      norm_num [w1, w2, clampRound, round_eq]
    rw [gradeSubmissionPipeline, score_pair,
      if_pos (show normalize [104, 105] = [] ∨ normalize ([] : List Nat) = [] from Or.inr rfl)]
    rw [show joinAndFuse (Except.ok 0) (Except.ok 0)
        (Except.ok (EntailmentLabel.neutral, 1)) 10 =
        Except.ok (fuse 0 0 EntailmentLabel.neutral 1 10) from rfl, hf]
  · norm_num

/-- C7: a failed scoring stage yields no grade at all — the join point
never returns a fused grade when the encoder, cross-encoder or entailment
stage reports an error, and exhausting all retry attempts surfaces
ScoringUnavailableError; an ungraded submission (marks undefined or null)
is rendered as the explicit text Not Graded, which differs from the
rendering of a zero grade. -/
theorem ungraded_never_silent_zero :
    (∀ (enc cross : Except ScoringError ℚ)
        (entail : Except ScoringError (EntailmentLabel × ℚ)) (M : ℚ) (e : ScoringError),
        enc = Except.error e ∨ cross = Except.error e ∨ entail = Except.error e →
        ∀ g : ℚ, joinAndFuse enc cross entail M ≠ Except.ok g) ∧
    (∀ attempts : List (Except ScoringError ℚ),
        (∀ a ∈ attempts, a = Except.error ScoringError.scoringUnavailable) →
        retryStage attempts = Except.error ScoringError.scoringUnavailable) ∧
    gradeCellText none = "Not Graded" ∧
    gradeCellText (some 0) = "0" ∧ "Not Graded" ≠ "0" := by
  refine ⟨?_, ?_, rfl, rfl, by decide⟩
  · intro enc cross entail M e h g hg
    rcases h with h | h | h <;> subst h
    · rcases cross with e2 | v2 <;> rcases entail with e3 | v3 <;> simp [joinAndFuse] at hg
    · rcases enc with e1 | v1 <;> rcases entail with e3 | v3 <;> simp [joinAndFuse] at hg
    · rcases enc with e1 | v1 <;> rcases cross with e2 | v2 <;> simp [joinAndFuse] at hg
  · intro attempts h
    induction attempts with
    | nil => rfl
    | cons a rest ih =>
      have ha := h a (by simp)
      subst ha
      show retryStage (Except.error ScoringError.scoringUnavailable :: rest) =
        Except.error ScoringError.scoringUnavailable
      simp only [retryStage]
      exact ih fun x hx => h x (by simp [hx])

theorem ungraded_never_silent_zero_witness :
    ((Except.error ScoringError.scoringUnavailable : Except ScoringError ℚ) =
        Except.error ScoringError.scoringUnavailable ∨
      (Except.ok 0 : Except ScoringError ℚ) = Except.error ScoringError.scoringUnavailable ∨
      (Except.ok (EntailmentLabel.neutral, 1) : Except ScoringError (EntailmentLabel × ℚ)) =
        Except.error ScoringError.scoringUnavailable) ∧
    joinAndFuse (Except.error ScoringError.scoringUnavailable) (Except.ok 0)
      (Except.ok (EntailmentLabel.neutral, 1)) 10 ≠ Except.ok 5 :=
  ⟨Or.inl rfl,
   ungraded_never_silent_zero.1 (Except.error ScoringError.scoringUnavailable) (Except.ok 0)
     (Except.ok (EntailmentLabel.neutral, 1)) 10 ScoringError.scoringUnavailable (Or.inl rfl) 5⟩

theorem countP_add_countP_le_length {α : Type} (l : List α) (p q : α → Bool)
    (h : ∀ x, p x = true → q x = false) :
    l.countP p + l.countP q ≤ l.length := by
  induction l with
  | nil => simp
  | cons x l ih =>
    rw [List.countP_cons, List.countP_cons, List.length_cons]
    by_cases hp : p x = true
    · have hq := h x hp
      rw [if_pos hp, if_neg (by simp [hq])]
      omega
    · rw [if_neg hp]
      by_cases hq : q x = true
      · rw [if_pos hq]
        omega
      · rw [if_neg hq]
        omega

theorem noc_partition_generic (key : NocRec → Nat) (records : List NocRec) :
    (grantedCount key records : Int) + refusedCount key records +
        pendingCount key records = totalCount key records ∧
    0 ≤ pendingCount key records := by
  have hle : grantedCount key records + refusedCount key records ≤ totalCount key records := by
    rw [grantedCount, refusedCount, totalCount]
    refine countP_add_countP_le_length _ _ _ fun k hk => ?_
    simp only [Bool.and_eq_true, Bool.not_eq_true'] at hk
    exact hk.1
  rw [pendingCount]
  omega

/-- C8: in both NOC dashboards the three summary counts partition the
population: granted plus refused plus pending equals the number of
distinct students (respectively subjects), pending is never negative, a
key counts as refused exactly when one of its records is Refused, and as
granted exactly when every one of its records is Granted. -/
theorem noc_summary_partition :
    (∀ records : List NocRec,
        (summaryStatsNOCManagement records).2.1 + (summaryStatsNOCManagement records).2.2.1 +
            (summaryStatsNOCManagement records).2.2.2 =
          ((summaryStatsNOCManagement records).1 : Int) ∧
        0 ≤ (summaryStatsNOCManagement records).2.2.2) ∧
    (∀ records : List NocRec,
        (summaryStatsStudentNOCView records).2.1 + (summaryStatsStudentNOCView records).2.2.1 +
            (summaryStatsStudentNOCView records).2.2.2 =
          ((summaryStatsStudentNOCView records).1 : Int) ∧
        0 ≤ (summaryStatsStudentNOCView records).2.2.2) ∧
    (∀ (key : NocRec → Nat) (records : List NocRec) (k : Nat),
        (isRefusedKey key records k = true ↔
          ∃ r ∈ records, key r = k ∧ r.noc_status = NocStatus.refused) ∧
        (isGrantedKey key records k = true ↔
          ∀ r ∈ records, key r = k → r.noc_status = NocStatus.granted)) := by
  refine ⟨?_, ?_, ?_⟩
  · intro records
    have h := noc_partition_generic NocRec.student_id records
    exact ⟨h.1, h.2⟩
  · intro records
    have h := noc_partition_generic NocRec.status_record_id records
    exact ⟨h.1, h.2⟩
  · intro key records k
    constructor
    · rw [isRefusedKey, List.any_eq_true]
      constructor
      · rintro ⟨r, hr, hst⟩
        rw [List.mem_filter] at hr
        exact ⟨r, hr.1, by simpa using hr.2, by simpa using hst⟩
      · rintro ⟨r, hr, hk, hst⟩
        exact ⟨r, List.mem_filter.mpr ⟨hr, by simpa using hk⟩, by simpa using hst⟩
    · rw [isGrantedKey, List.all_eq_true]
      constructor
      · intro hall r hr hk
        simpa using hall r (List.mem_filter.mpr ⟨hr, by simpa using hk⟩)
      · intro hall r hr
        rw [List.mem_filter] at hr
        simpa using hall r hr.1 (by simpa using hr.2)

theorem noc_summary_partition_witness :
    (summaryStatsNOCManagement [⟨1, 2, NocStatus.granted⟩, ⟨1, 2, NocStatus.refused⟩]).2.1 +
        (summaryStatsNOCManagement [⟨1, 2, NocStatus.granted⟩, ⟨1, 2, NocStatus.refused⟩]).2.2.1 +
        (summaryStatsNOCManagement [⟨1, 2, NocStatus.granted⟩, ⟨1, 2, NocStatus.refused⟩]).2.2.2 =
      ((summaryStatsNOCManagement [⟨1, 2, NocStatus.granted⟩, ⟨1, 2, NocStatus.refused⟩]).1 : Int) :=
  ((noc_summary_partition.1 [⟨1, 2, NocStatus.granted⟩, ⟨1, 2, NocStatus.refused⟩]).1)

theorem handleSubmit_success_role (email password : String) (sel : Role)
    (tokenResp : Except String String) (profileResp : Except String Role)
    (r : Role) (tok : String)
    (h : handleSubmit email password sel tokenResp profileResp =
      LoginOutcome.loginSuccess r tok) :
    profileResp = Except.ok sel ∧ r = sel := by
  unfold handleSubmit at h
  split at h
  · exact absurd h (by simp)
  · split at h
    · exact absurd h (by simp)
    · split at h
      · exact absurd h (by simp)
      · split at h
        · exact absurd h (by simp)
        · rename_i hnn
          cases h
          have hur := not_not.mp hnn
          exact ⟨by rw [hur], hur⟩

/-- C9: the login handler invokes onLoginSuccess only when the role
returned by the backend profile equals the role selected in the form;
whenever the two differ it sets an error message and never signs the user
in. -/
theorem handleSubmit_role_check :
    (∀ (email password : String) (sel : Role) (tokenResp : Except String String)
        (profileResp : Except String Role) (r : Role) (tok : String),
        handleSubmit email password sel tokenResp profileResp =
            LoginOutcome.loginSuccess r tok →
        profileResp = Except.ok sel ∧ r = sel) ∧
    (∀ (email password : String) (sel : Role) (tokenResp : Except String String) (ur : Role),
        ur ≠ sel →
        ∀ (r : Role) (tok : String),
          handleSubmit email password sel tokenResp (Except.ok ur) ≠
            LoginOutcome.loginSuccess r tok) := by
  constructor
  · exact fun e p s tr pr r tok h => handleSubmit_success_role e p s tr pr r tok h
  · intro email password sel tr ur hne r tok h
    have h1 := (handleSubmit_success_role email password sel tr (Except.ok ur) r tok h).1
    exact hne (by simpa using h1)

theorem handleSubmit_role_check_witness :
    Role.teacher ≠ Role.student ∧
    handleSubmit "a@b.com" "pw" Role.student (Except.ok "tok") (Except.ok Role.teacher) ≠
      LoginOutcome.loginSuccess Role.teacher "tok" :=
  ⟨by decide,
   handleSubmit_role_check.2 "a@b.com" "pw" Role.student (Except.ok "tok") Role.teacher
     (by decide) Role.teacher "tok"⟩

/-- C10: the optimistic update of handleGradeSubmission changes only the
marks and feedback of the selected submission inside the selected
assignment; every other assignment, every other submission of the
selected assignment, and every other field of the updated submission and
of the selected assignment are left unchanged. -/
theorem handleGradeSubmission_frame :
    ∀ (assignments : List Assignment) (aid sid : Nat) (g : Int) (fb : String),
      handleGradeSubmission assignments aid sid g fb =
          assignments.map (gradeOneAssignment aid sid g fb) ∧
      (∀ a : Assignment, a.id ≠ aid → gradeOneAssignment aid sid g fb a = a) ∧
      (∀ a : Assignment, a.id = aid →
          (gradeOneAssignment aid sid g fb a).id = a.id ∧
          (gradeOneAssignment aid sid g fb a).title = a.title ∧
          (gradeOneAssignment aid sid g fb a).deadline = a.deadline ∧
          (gradeOneAssignment aid sid g fb a).max_marks = a.max_marks ∧
          (gradeOneAssignment aid sid g fb a).status = a.status ∧
          (gradeOneAssignment aid sid g fb a).assignment_type = a.assignment_type ∧
          (gradeOneAssignment aid sid g fb a).submissions =
            a.submissions.map (gradeOneSubmission sid g fb)) ∧
      (∀ s : Submission, s.id ≠ sid → gradeOneSubmission sid g fb s = s) ∧
      (∀ s : Submission, s.id = sid →
          (gradeOneSubmission sid g fb s).id = s.id ∧
          (gradeOneSubmission sid g fb s).student = s.student ∧
          (gradeOneSubmission sid g fb s).submitted_at = s.submitted_at ∧
          (gradeOneSubmission sid g fb s).status = s.status ∧
          (gradeOneSubmission sid g fb s).file_path = s.file_path ∧
          (gradeOneSubmission sid g fb s).marks = some g ∧
          (gradeOneSubmission sid g fb s).feedback = some fb) := by
  intro assignments aid sid g fb
  refine ⟨rfl, ?_, ?_, ?_, ?_⟩
  · intro a ha
    rw [gradeOneAssignment, if_pos ha]
  · intro a ha
    rw [gradeOneAssignment, if_neg (by simp [ha])]
    exact ⟨rfl, rfl, rfl, rfl, rfl, rfl, rfl⟩
  · intro s hs
    rw [gradeOneSubmission, if_pos hs]
  · intro s hs
    rw [gradeOneSubmission, if_neg (by simp [hs])]
    exact ⟨rfl, rfl, rfl, rfl, rfl, rfl, rfl⟩

theorem handleGradeSubmission_frame_witness :
    (2 : Nat) ≠ 1 ∧
    gradeOneAssignment 1 1 9 "fb"
        (⟨2, "T2", "d", 50, "draft", "Home Assignment", []⟩ : Assignment) =
      ⟨2, "T2", "d", 50, "draft", "Home Assignment", []⟩ :=
  ⟨by decide, (handleGradeSubmission_frame [] 1 1 9 "fb").2.1 _ (by decide)⟩

end Educheck
